import Mathlib

set_option autoImplicit false

/-
Verification of the document ingestion-and-citation pipeline and the
theme-clustering engine of the wasserstoff AI intern task repository.

The Python sources under backend/app are shallowly embedded: text is a
list of characters, Python string primitives (strip, split, replace,
int(), startswith) are modelled as executable Lean functions, external
collaborators (the pdftotext/pdfinfo/OCR tools, the Chroma vector index,
the sklearn DBSCAN clusterer, the langchain text splitter) are inputs to
the embedded functions, exactly as their results flow into the Python
code.  Machine floats from the Python code are modelled as exact
rationals.
-/

namespace DocPipeline

/-- Text is modelled as a list of characters (a Python `str`). -/
abbrev Str := List Char

/-! ### Python string primitives -/

/-- Python `str.strip()`: drop whitespace from both ends. -/
def pyStrip (s : Str) : Str :=
  ((s.dropWhile Char.isWhitespace).reverse.dropWhile Char.isWhitespace).reverse

/-- Python `str.split(sep)` for a one-character separator: split at every
occurrence of the separator, keeping empty pieces. -/
def pySplitOnChar (sep : Char) : Str → List Str
  | [] => [[]]
  | c :: cs =>
    match pySplitOnChar sep cs with
    | [] => [[c]]
    | g :: gs => if c = sep then [] :: g :: gs else (c :: g) :: gs

/-- Fuel-driven worker for `replaceAll`; the fuel is an upper bound on the
number of characters still to be scanned, so `length + 1` fuel always
suffices. -/
def replaceAllFuel (pat repl : Str) : Nat → Str → Str
  | 0, s => s
  | _ + 1, [] => []
  | fuel + 1, c :: cs =>
    if !pat.isEmpty && pat.isPrefixOf (c :: cs) then
      repl ++ replaceAllFuel pat repl fuel ((c :: cs).drop pat.length)
    else
      c :: replaceAllFuel pat repl fuel cs

/-- Python `str.replace(pat, repl)`: replace every non-overlapping
occurrence of `pat`, scanning left to right. -/
def replaceAll (pat repl s : Str) : Str :=
  replaceAllFuel pat repl (s.length + 1) s

/-- Value of a list of decimal digits, or `none` if the list is empty or
contains a non-digit. -/
def decDigits? (l : Str) : Option Nat :=
  if !l.isEmpty && l.all Char.isDigit then
    some (l.foldl (fun a c => a * 10 + (c.toNat - 48)) 0)
  else
    none

/-- Python `int(s)` on decimal literals: strip whitespace, optional sign,
then decimal digits; `none` models a raised `ValueError`. -/
def pyInt (s : Str) : Option Int :=
  match pyStrip s with
  | '-' :: rest => (decDigits? rest).map (fun n => -(n : Int))
  | '+' :: rest => (decDigits? rest).map (fun n => (n : Int))
  | t => (decDigits? t).map (fun n => (n : Int))

/-! ### enhanced_citation.EnhancedCitationService._estimate_page_number -/

/-- Embeds `EnhancedCitationService._estimate_page_number`
(enhanced_citation.py lines 190-207): paragraphs of a document with at
most one paragraph go to page 1; otherwise the page is
`min(1 + paragraph_index * total_pages // total_paragraphs, total_pages)`. -/
def estimate_page_number (paragraph_index total_paragraphs total_pages : Nat) : Nat :=
  if total_paragraphs ≤ 1 then 1
  else min (1 + paragraph_index * total_pages / total_paragraphs) total_pages

/-- C7 counterexample: with `total_pages = 0` (reachable: `_process_pdf`
returns page count 0 when `pdfinfo` prints no `Pages:` line) and two
paragraphs, the estimate for paragraph 0 is 0, which does not lie in the
interval `[1, total_pages]`; the claim quantifies over all `total_pages`
and `total_paragraphs` and therefore fails. -/
theorem estimate_page_number_zero_pages_counterexample :
    estimate_page_number 0 2 0 = 0 ∧ ¬ (1 ≤ estimate_page_number 0 2 0) := by
  decide

/-- C7 (amended): for every paragraph index, paragraph total and page
total, the position-based page estimate lies in `[1, total_pages]`
provided `total_pages ≥ 1`, and for fixed totals the estimate is
monotonically non-decreasing in the paragraph index. -/
theorem estimate_page_number_range_and_monotone :
    (∀ i n tp : Nat, 1 ≤ tp →
      1 ≤ estimate_page_number i n tp ∧ estimate_page_number i n tp ≤ tp)
    ∧ (∀ i j n tp : Nat, i ≤ j →
      estimate_page_number i n tp ≤ estimate_page_number j n tp) := by
  constructor
  · intro i n tp htp
    unfold estimate_page_number
    by_cases hn : n ≤ 1
    · simp [hn, htp]
    · simp only [hn, if_false]
      refine ⟨le_min (Nat.le_add_right 1 _) htp, min_le_right _ _⟩
  · intro i j n tp hij
    unfold estimate_page_number
    by_cases hn : n ≤ 1
    · simp [hn]
    · simp only [hn, if_false]
      exact min_le_min (Nat.add_le_add_left (Nat.div_le_div_right
        (Nat.mul_le_mul_right tp hij)) 1) le_rfl

/-- Witness for `estimate_page_number_range_and_monotone` at concrete
inputs. -/
theorem estimate_page_number_range_and_monotone_witness :
    (1 ≤ estimate_page_number 1 4 3 ∧ estimate_page_number 1 4 3 ≤ 3)
    ∧ estimate_page_number 1 4 3 ≤ estimate_page_number 2 4 3 :=
  ⟨estimate_page_number_range_and_monotone.1 1 4 3 (by decide),
   estimate_page_number_range_and_monotone.2 1 2 4 3 (by decide)⟩

/-! ### vector_database.VectorDatabaseService.search (retrieval formatter) -/

/-- A raw hit as returned by the external Chroma index to
`VectorDatabaseService.search`: a langchain document (page content plus
metadata) and a distance score. -/
structure RawHit where
  chunk_id : String
  document_id : String
  document_title : String
  page_content : String
  page : Option Int
  distance : ℚ
deriving DecidableEq

/-- A formatted search result, as built by `VectorDatabaseService.search`
(vector_database.py lines 197-216). -/
structure SearchResult where
  document_id : String
  document_title : String
  chunk_id : String
  extracted_answer : String
  citation : String
  relevance_score : ℚ
deriving DecidableEq

/-- Embeds the score conversion of `VectorDatabaseService.search`:
`relevance_score = 1.0 - min(score, 1.0)`. -/
def relevance_of_distance (d : ℚ) : ℚ := 1 - min d 1

/-- Embeds the per-hit formatting of `VectorDatabaseService.search`:
citation is `"Page {page}"` with metadata default 1, relevance is the
converted distance. -/
def format_hit (h : RawHit) : SearchResult :=
  { document_id := h.document_id
    document_title := h.document_title
    chunk_id := h.chunk_id
    extracted_answer := h.page_content
    citation := "Page " ++ toString (h.page.getD 1)
    relevance_score := relevance_of_distance h.distance }

/-- Embeds the formatting loop of `VectorDatabaseService.search`: the raw
hits are formatted in the order delivered by the external index. -/
def vdb_search_format (hits : List RawHit) : List SearchResult :=
  hits.map format_hit

/-- C5: every formatted result's relevance score equals
`1 - min(distance, 1)`; for nonnegative distances the score lies in
`[0, 1]`; the score is monotonically non-increasing in the distance; and
formatting preserves the external index's ranking order position by
position. -/
theorem search_format_spec :
    (∀ h : RawHit, (format_hit h).relevance_score = 1 - min h.distance 1)
    ∧ (∀ d : ℚ, 0 ≤ d →
        0 ≤ relevance_of_distance d ∧ relevance_of_distance d ≤ 1)
    ∧ (∀ d₁ d₂ : ℚ, d₁ ≤ d₂ →
        relevance_of_distance d₂ ≤ relevance_of_distance d₁)
    ∧ (∀ (hits : List RawHit) (i : Nat),
        (vdb_search_format hits)[i]? = (hits[i]?).map format_hit) := by
  refine ⟨fun h => rfl, fun d hd => ⟨?_, ?_⟩, fun d₁ d₂ h => ?_, fun hits i => ?_⟩
  · have : min d 1 ≤ 1 := min_le_right d 1
    simp only [relevance_of_distance]
    linarith
  · have : (0 : ℚ) ≤ min d 1 := le_min hd (by norm_num)
    simp only [relevance_of_distance]
    linarith
  · have : min d₁ 1 ≤ min d₂ 1 := min_le_min h le_rfl
    simp only [relevance_of_distance]
    linarith
  · simp [vdb_search_format]

/-- Witness for `search_format_spec` at concrete distances. -/
theorem search_format_spec_witness :
    (0 ≤ relevance_of_distance (1/2) ∧ relevance_of_distance (1/2) ≤ 1)
    ∧ relevance_of_distance (3/4) ≤ relevance_of_distance (1/4) :=
  ⟨search_format_spec.2.1 (1/2) (by norm_num),
   search_format_spec.2.2.1 (1/4) (3/4) (by norm_num)⟩

/-! ### vector_database.VectorDatabaseService.add_document (chunk page rule) -/

/-- Embeds the marker scan of `VectorDatabaseService.add_document`
(vector_database.py lines 120-128): the chunk text is split on newlines
and the first line starting with `"--- Page "` whose remainder (after
deleting the `"--- Page "` and `" ---"` substrings) parses with `int()`
supplies the page; parse failures fall through to the next line. -/
def chunk_page_info (chunk_text : Str) : Option Int :=
  (pySplitOnChar '\n' chunk_text).findSome? (fun line =>
    if "--- Page ".toList.isPrefixOf line then
      pyInt (replaceAll " ---".toList [] (replaceAll "--- Page ".toList [] line))
    else none)

/-- Embeds the position-based fallback of `add_document`
(vector_database.py lines 130-132): when no marker was found and the
document's page count is truthy, the page is
`min(1 + (i * page_count // len(chunks)), page_count)`. -/
def estimate_info (info : Option Int) (page_count : Option Nat) (i n : Nat) :
    Option Int :=
  match info, page_count with
  | none, some pc => if pc ≠ 0 then some ((min (1 + i * pc / n) pc : Nat) : Int) else none
  | _, _ => info

/-- Embeds the Python expression `page_info or 1` from the chunk
metadata of `add_document` (vector_database.py line 146). -/
def or_one (info : Option Int) : Int :=
  match info with
  | some p => if p = 0 then 1 else p
  | none => 1

/-- The page stored in the metadata of chunk `i` of `n` by
`add_document`: marker value if a marker line parses, otherwise the
position-based estimate, otherwise 1. -/
def add_document_chunk_page (chunk_text : Str) (page_count : Option Nat)
    (i n : Nat) : Int :=
  or_one (estimate_info (chunk_page_info chunk_text) page_count i n)

/-- C2 counterexample: a successfully processed plain-text document whose
content is the single line `--- Page 777 ---` gets
`page_count = max(1, 16 // 3000) = 1`, yet its only chunk carries page
777, outside `[1, page_count]` — the marker branch copies the marker
value without any bound check. -/
theorem chunk_page_marker_counterexample :
    add_document_chunk_page ("--- Page 777 ---".toList) (some 1) 0 1 = 777
    ∧ ¬ add_document_chunk_page ("--- Page 777 ---".toList) (some 1) 0 1 ≤ (1 : Int) := by
  decide

/-- C2 (amended): for a chunk of a processed document with known page
count `pc ≥ 1`, when no inline marker parses the position-based estimate
always lies in `[1, pc]`; when an inline marker parses to `N ≠ 0` the
stored page is exactly `N` (which lies in `[1, pc]` only when the marker
was one the pipeline's own OCR path emitted). -/
theorem add_document_chunk_page_spec (chunk_text : Str) (pc i n : Nat)
    (hpc : 1 ≤ pc) (hin : i < n) :
    (chunk_page_info chunk_text = none →
      1 ≤ add_document_chunk_page chunk_text (some pc) i n
      ∧ add_document_chunk_page chunk_text (some pc) i n ≤ (pc : Int))
    ∧ (∀ N : Int, chunk_page_info chunk_text = some N → N ≠ 0 →
      add_document_chunk_page chunk_text (some pc) i n = N) := by
  constructor
  · intro hnone
    have hpcne : pc ≠ 0 := by omega
    have hm1 : 1 ≤ min (1 + i * pc / n) pc := le_min (Nat.le_add_right 1 _) hpc
    have hm2 : min (1 + i * pc / n) pc ≤ pc := min_le_right _ _
    have hz : ((min (1 + i * pc / n) pc : Nat) : Int) ≠ 0 :=
      Int.natCast_ne_zero.mpr (by omega)
    unfold add_document_chunk_page
    rw [hnone]
    simp only [estimate_info, hpcne, ne_eq, not_false_eq_true, if_true, or_one, hz,
      if_false]
    exact ⟨by exact_mod_cast hm1, by exact_mod_cast hm2⟩
  · intro N hsome hNz
    unfold add_document_chunk_page
    rw [hsome]
    simp [estimate_info, or_one, hNz]

/-- Witness for `add_document_chunk_page_spec`: a marker-free chunk of a
3-page document gets an in-range page. -/
theorem add_document_chunk_page_spec_witness :
    1 ≤ add_document_chunk_page ("hello".toList) (some 3) 1 2
    ∧ add_document_chunk_page ("hello".toList) (some 3) 1 2 ≤ (3 : Int) :=
  (add_document_chunk_page_spec ("hello".toList) 3 1 2 (by decide) (by decide)).1
    (by decide)

/-! ### document_processor.DocumentProcessor._process_pdf and OCR fallback -/

/-- Python `"sep".join(parts)`. -/
def py_join (sep : Str) : List Str → Str
  | [] => []
  | [x] => x
  | x :: y :: rest => x ++ sep ++ py_join sep (y :: rest)

/-- Embeds the `Pages:` scan of `_process_pdf`
(document_processor.py lines 153-158): the first line of the `pdfinfo`
output starting with `Pages:` is parsed as `int(line.split(':')[1].strip())`;
no such line leaves the initial 0; a parse failure (`none`) raises and
sends `_process_pdf` into the OCR fallback. -/
def pdfinfo_page_count (info_output : Str) : Option Int :=
  match (pySplitOnChar '\n' info_output).find?
      (fun line => "Pages:".toList.isPrefixOf line) with
  | none => some 0
  | some line => pyInt (pyStrip ((pySplitOnChar ':' line).getD 1 []))

/-- The inline page marker `--- Page m ---` emitted by the OCR path. -/
def page_marker (m : Nat) : Str :=
  "--- Page ".toList ++ Nat.toDigits 10 m ++ " ---".toList

/-- One per-page block `f"--- Page {i+1} ---\n{page_text}\n"` of
`_process_pdf_with_ocr` (document_processor.py line 204). -/
def ocr_page_block (i : Nat) (page_text : Str) : Str :=
  page_marker (i + 1) ++ '\n' :: (page_text ++ ['\n'])

/-- The per-page blocks of `_process_pdf_with_ocr`, in page order. -/
def ocr_blocks : Nat → List Str → List Str
  | _, [] => []
  | i, t :: rest => ocr_page_block i t :: ocr_blocks (i + 1) rest

/-- Embeds the text combination `"\n".join(all_text)` of
`_process_pdf_with_ocr` (document_processor.py line 207). -/
def ocr_combined_text (pages : List Str) : Str :=
  py_join ['\n'] (ocr_blocks 0 pages)

/-- Embeds `_process_pdf_with_ocr` (document_processor.py lines 166-209):
`ocr_pages` is the list of per-page OCR texts produced from the images of
`convert_from_path` (`none` models a raised exception, which propagates);
the page count is the number of rasterized pages. -/
def process_pdf_with_ocr (ocr_pages : Option (List Str)) : Option (Str × Int) :=
  match ocr_pages with
  | none => none
  | some pages => some (ocr_combined_text pages, (pages.length : Int))

/-- Embeds `_process_pdf` (document_processor.py lines 114-164):
`direct_text` is the `pdftotext` output (`none` models a raised tool
error), `info_output` the `pdfinfo` stdout; any failure in the direct
path, or stripped text shorter than 100 characters, falls back to
`_process_pdf_with_ocr`. -/
def process_pdf (direct_text : Option Str) (info_output : Option Str)
    (ocr_pages : Option (List Str)) : Option (Str × Int) :=
  match direct_text with
  | none => process_pdf_with_ocr ocr_pages
  | some text =>
    if (pyStrip text).length < 100 then process_pdf_with_ocr ocr_pages
    else
      match info_output with
      | none => process_pdf_with_ocr ocr_pages
      | some info =>
        match pdfinfo_page_count info with
        | none => process_pdf_with_ocr ocr_pages
        | some n => some (text, n)

/-- Helper: in the joined OCR text, the marker of page `i + k + 1` occurs
for every page index `k` of the block list started at offset `i`. -/
theorem page_marker_infix_of_blocks (pages : List Str) :
    ∀ i k, k < pages.length →
      page_marker (i + k + 1) <:+: py_join ['\n'] (ocr_blocks i pages) := by
  induction pages with
  | nil => intro i k hk; exact absurd hk (by simp)
  | cons t rest ih =>
    intro i k hk
    cases k with
    | zero =>
      have hpre : page_marker (i + 1) <+: ocr_page_block i t :=
        ⟨'\n' :: (t ++ ['\n']), rfl⟩
      have hblock : ocr_page_block i t <+:
          py_join ['\n'] (ocr_blocks i (t :: rest)) := by
        cases rest with
        | nil => exact ⟨[], by simp [ocr_blocks, py_join]⟩
        | cons u us =>
          refine ⟨['\n'] ++ py_join ['\n'] (ocr_blocks (i + 1) (u :: us)), ?_⟩
          simp [ocr_blocks, py_join]
      simpa using (hpre.trans hblock).isInfix
    | succ k =>
      have hk2 : k < rest.length := by simpa using hk
      have hrest := ih (i + 1) k hk2
      cases rest with
      | nil => exact absurd hk2 (by simp)
      | cons u us =>
        have hsuf : py_join ['\n'] (ocr_blocks (i + 1) (u :: us)) <:+
            py_join ['\n'] (ocr_blocks i (t :: u :: us)) := by
          refine ⟨ocr_page_block i t ++ ['\n'], ?_⟩
          simp [ocr_blocks, py_join]
        have : page_marker (i + 1 + k + 1) <:+:
            py_join ['\n'] (ocr_blocks i (t :: u :: us)) :=
          hrest.trans hsuf.isInfix
        simpa [Nat.add_assoc, Nat.add_comm, Nat.add_left_comm] using this

/-- C8: when the stripped direct text has at least 100 characters and the
page-count tool output parses, `_process_pdf` returns the direct text
with the tool's page count; when the stripped direct text is shorter
than 100 characters, it returns the OCR fallback result, whose page
count is the number of rasterized pages and whose combined text carries
the inline `--- Page N ---` marker of every rasterized page. -/
theorem process_pdf_spec :
    (∀ (text info : Str) (n : Int) (ocr : Option (List Str)),
      100 ≤ (pyStrip text).length → pdfinfo_page_count info = some n →
      process_pdf (some text) (some info) ocr = some (text, n))
    ∧ (∀ (text : Str) (pages : List Str) (info : Option Str),
      (pyStrip text).length < 100 →
      process_pdf (some text) info (some pages) =
        some (ocr_combined_text pages, (pages.length : Int))
      ∧ ∀ k, k < pages.length → page_marker (k + 1) <:+: ocr_combined_text pages) := by
  constructor
  · intro text info n ocr hlen hinfo
    have hnotlt : ¬ (pyStrip text).length < 100 := by omega
    simp [process_pdf, hnotlt, hinfo]
  · intro text pages info hlen
    refine ⟨by simp [process_pdf, hlen, process_pdf_with_ocr], fun k hk => ?_⟩
    simpa [ocr_combined_text] using page_marker_infix_of_blocks pages 0 k hk

/-- Witness for `process_pdf_spec`: a 100-character text PDF takes the
direct path with the `pdfinfo` count 5; a short text falls back to OCR
over two rasterized pages, whose markers both occur in the output. -/
theorem process_pdf_spec_witness :
    (process_pdf (some (List.replicate 100 'a')) (some ("Pages: 5".toList)) none =
      some (List.replicate 100 'a', 5))
    ∧ (process_pdf (some ("hi".toList)) none (some ["abc".toList, "de".toList]) =
        some (ocr_combined_text ["abc".toList, "de".toList], 2)
      ∧ page_marker 2 <:+: ocr_combined_text ["abc".toList, "de".toList]) :=
  ⟨process_pdf_spec.1 (List.replicate 100 'a') ("Pages: 5".toList) 5 none
      (by decide) (by decide),
   (process_pdf_spec.2 ("hi".toList) ["abc".toList, "de".toList] none (by decide)).1,
   (process_pdf_spec.2 ("hi".toList) ["abc".toList, "de".toList] none (by decide)).2
      1 (by decide)⟩

/-! ### document_processor.DocumentProcessor.process_document -/

/-- A document metadata record, the fields of the Python metadata
dictionary that the claims speak about. -/
structure DocumentRec where
  id : String
  status : String
  page_count : Option Nat
  error_message : Option String
  text_length : Option Nat
deriving DecidableEq

/-- Outcome of the format-specific extraction chain inside
`DocumentProcessor.process_document`: either extracted text with a page
count, or a raised exception carried as its message. -/
inductive ExtractionOutcome where
  | ok (text : Str) (page_count : Nat)
  | raised (msg : String)
deriving DecidableEq

/-- Embeds `DocumentProcessor.process_document`
(document_processor.py lines 60-112): on success the record gets
`status = "processed"`, the page count and the text length and the call
returns `True`; when the extraction chain raises, the record gets
`status = "error"` and the error message and the call returns `False`.
The function performs exactly one extraction attempt per call. -/
def process_document (doc : DocumentRec) (outcome : ExtractionOutcome) :
    DocumentRec × Bool :=
  match outcome with
  | .ok text pages =>
    ({ doc with
        status := "processed"
        page_count := some pages
        text_length := some text.length }, true)
  | .raised msg =>
    ({ doc with
        status := "error"
        error_message := some msg }, false)

/-- A concrete freshly uploaded document record. -/
def sampleDoc : DocumentRec :=
  { id := "doc1", status := "processing", page_count := none
    error_message := none, text_length := none }

/-- C3 counterexample: when the extraction chain of
`process_document` is exhausted, the document's status is set to the
literal `"error"`, not the literal `"failed"` the claim requires (the
error message is recorded). -/
theorem process_document_failure_status_counterexample :
    (process_document sampleDoc (.raised "boom")).1.status = "error"
    ∧ ¬ (process_document sampleDoc (.raised "boom")).1.status = "failed"
    ∧ (process_document sampleDoc (.raised "boom")).1.error_message = some "boom" := by
  decide

/-- C3 (amended): for every document and terminal extraction exception,
`process_document` records `status = "error"` together with the error
message and returns `False`; the single call makes exactly one extraction
attempt, so the document is not retried automatically. -/
theorem process_document_terminal_failure (doc : DocumentRec) (msg : String) :
    (process_document doc (.raised msg)).1.status = "error"
    ∧ (process_document doc (.raised msg)).1.error_message = some msg
    ∧ (process_document doc (.raised msg)).2 = false :=
  ⟨rfl, rfl, rfl⟩

/-! ### document_processor.DocumentProcessor.get_document / delete_document -/

/-- The in-memory document registry `self.documents`: a key-value map
from document id to metadata record (Python dict, keys unique). -/
abbrev DocRegistry := List (String × DocumentRec)

/-- Embeds `DocumentProcessor.get_document`
(document_processor.py lines 354-364): `self.documents.get(document_id)`. -/
def get_document (documents : DocRegistry) (document_id : String) : Option DocumentRec :=
  (documents.find? (fun p => p.1 == document_id)).map Prod.snd

/-- Result of `DocumentProcessor.delete_document`: the returned boolean,
the updated registry, and whether file deletion was attempted. -/
structure DeleteOutcome where
  success : Bool
  documents : DocRegistry
  attempted_file_deletion : Bool
deriving DecidableEq

/-- Embeds `DocumentProcessor.delete_document`
(document_processor.py lines 366-398): an unknown id returns `False`
before any file operation; otherwise the uploaded file and processed
directory are deleted (`file_ops_succeed` abstracts whether those os
calls raise) and only if they succeed is the id removed from the
registry and `True` returned; a raised file operation returns `False`
and leaves the registry as it was. -/
def delete_document (documents : DocRegistry) (document_id : String)
    (file_ops_succeed : Bool) : DeleteOutcome :=
  if (documents.find? (fun p => p.1 == document_id)).isNone then
    { success := false, documents := documents, attempted_file_deletion := false }
  else if file_ops_succeed then
    { success := true
      documents := documents.filter (fun p => !(p.1 == document_id))
      attempted_file_deletion := true }
  else
    { success := false, documents := documents, attempted_file_deletion := true }

/-- C10: deleting a document id that is not in the registry returns
`False`, leaves the registry unchanged and attempts no file deletion;
and whenever `delete_document` returns `True`, a subsequent
`get_document` on that id returns `None`. -/
theorem delete_document_spec :
    (∀ (documents : DocRegistry) (document_id : String) (ok : Bool),
      get_document documents document_id = none →
      delete_document documents document_id ok =
        ⟨false, documents, false⟩)
    ∧ (∀ (documents : DocRegistry) (document_id : String) (ok : Bool),
      (delete_document documents document_id ok).success = true →
      get_document (delete_document documents document_id ok).documents
        document_id = none) := by
  constructor
  · intro documents document_id ok hnone
    have hfind : documents.find? (fun p => p.1 == document_id) = none := by
      cases hfo : documents.find? (fun p => p.1 == document_id) with
      | none => rfl
      | some v =>
        rw [get_document, hfo] at hnone
        simp at hnone
    simp [delete_document, hfind]
  · intro documents document_id ok hsucc
    by_cases hfind : (documents.find? (fun p => p.1 == document_id)).isNone
    · exfalso
      simp [delete_document, hfind] at hsucc
    · cases ok with
      | false =>
        exfalso
        simp [delete_document, hfind] at hsucc
      | true =>
        have hdel : delete_document documents document_id true =
            { success := true
              documents := documents.filter (fun p => !(p.1 == document_id))
              attempted_file_deletion := true } := by
          simp [delete_document, hfind]
        rw [hdel]
        have hfnone : (documents.filter (fun p => !(p.1 == document_id))).find?
            (fun p => p.1 == document_id) = none := by
          rw [List.find?_eq_none]
          intro x hx
          have hmem := (List.mem_filter.mp hx).2
          simp only [Bool.not_eq_eq_eq_not, Bool.not_true] at hmem
          simp [hmem]
        simp [get_document, hfnone]

/-- Witness for `delete_document_spec` on a concrete one-document
registry: deleting an unknown id is a no-op returning `False`, and after
a successful delete the document can no longer be looked up. -/
theorem delete_document_spec_witness :
    (get_document [("a", sampleDoc)] "b" = none
      ∧ delete_document [("a", sampleDoc)] "b" true = ⟨false, [("a", sampleDoc)], false⟩)
    ∧ ((delete_document [("a", sampleDoc)] "a" true).success = true
      ∧ get_document (delete_document [("a", sampleDoc)] "a" true).documents "a" = none) :=
  ⟨⟨by decide, delete_document_spec.1 [("a", sampleDoc)] "b" true (by decide)⟩,
   ⟨by decide, delete_document_spec.2 [("a", sampleDoc)] "a" true (by decide)⟩⟩

/-! ### enhanced_citation: paragraph and sentence segmentation -/

/-- Match of the regex `--- Page \d+ ---` at the head of `s`: returns the
matched text and the remainder. The digit run is maximal, exactly as the
greedy `\d+` matches. -/
def match_page_marker (s : Str) : Option (Str × Str) :=
  if "--- Page ".toList.isPrefixOf s then
    let after := s.drop 9
    let digits := after.takeWhile Char.isDigit
    if digits.isEmpty then none
    else
      let after2 := after.drop digits.length
      if " ---".toList.isPrefixOf after2 then
        some ("--- Page ".toList ++ digits ++ " ---".toList, after2.drop 4)
      else none
  else none

/-- Fuel-driven worker for `wrap_markers`; fuel bounds the characters
still to be scanned. -/
def wrap_markers_fuel : Nat → Str → Str
  | 0, s => s
  | _ + 1, [] => []
  | fuel + 1, c :: cs =>
    match match_page_marker (c :: cs) with
    | some (m, rest) => '\n' :: (m ++ '\n' :: wrap_markers_fuel fuel rest)
    | none => c :: wrap_markers_fuel fuel cs

/-- Embeds the substitution
`re.sub(r'--- Page \d+ ---', lambda m: f"\n\x7bm.group(0)\x7d\n", text)` of
`_split_into_paragraphs` (enhanced_citation.py line 146): every page
marker occurrence is wrapped in newlines, scanning left to right. -/
def wrap_markers (s : Str) : Str := wrap_markers_fuel (s.length + 1) s

/-- Match of the split regex `\n\s*\n` at the head of `s`: a newline, a
greedy whitespace run backtracked to end at its last newline. Returns the
remainder after the separator. -/
def blank_sep_at (s : Str) : Option Str :=
  match s with
  | '\n' :: rest =>
    let ws := rest.takeWhile Char.isWhitespace
    match ws.reverse.findIdx? (fun c => c = '\n') with
    | none => none
    | some j => some (rest.drop (ws.length - j))
  | _ => none

/-- Fuel-driven worker for the split on `\n\s*\n`. -/
def split_blank_fuel : Nat → Str → List Str
  | 0, s => [s]
  | _ + 1, [] => [[]]
  | fuel + 1, c :: cs =>
    match blank_sep_at (c :: cs) with
    | some rest => [] :: split_blank_fuel fuel rest
    | none =>
      match split_blank_fuel fuel cs with
      | [] => [[c]]
      | g :: gs => (c :: g) :: gs

/-- Embeds `re.split(r'\n\s*\n', text)` of `_split_into_paragraphs`
(enhanced_citation.py line 149). -/
def split_blank (s : Str) : List Str := split_blank_fuel (s.length + 1) s

/-- Embeds `EnhancedCitationService._split_into_paragraphs`
(enhanced_citation.py lines 135-152): wrap page markers in newlines,
split on blank-line boundaries, strip, and drop empty paragraphs. -/
def split_into_paragraphs (text : Str) : List Str :=
  ((split_blank (wrap_markers text)).map pyStrip).filter (fun p => !p.isEmpty)

/-- Fuel-driven worker for the sentence split `(?<=[.!?])\s+`: a maximal
whitespace run is a separator when the preceding character (tracked in
`prev`) is `.`, `!` or `?`. -/
def split_sentences_fuel : Nat → Option Char → Str → List Str
  | 0, _, s => [s]
  | _ + 1, _, [] => [[]]
  | fuel + 1, prev, c :: cs =>
    if c.isWhitespace ∧ (prev = some '.' ∨ prev = some '!' ∨ prev = some '?') then
      let ws := (c :: cs).takeWhile Char.isWhitespace
      [] :: split_sentences_fuel fuel (some ' ') ((c :: cs).drop ws.length)
    else
      match split_sentences_fuel fuel (some c) cs with
      | [] => [[c]]
      | g :: gs => (c :: g) :: gs

/-- Embeds `EnhancedCitationService._split_into_sentences`
(enhanced_citation.py lines 154-169): split on whitespace preceded by
sentence punctuation, strip, and drop empty sentences. -/
def split_into_sentences (paragraph : Str) : List Str :=
  ((split_sentences_fuel (paragraph.length + 1) none paragraph).map pyStrip).filter
    (fun s => !s.isEmpty)

/-- C9: the Citation Indexer's segmentation is a pure function of the
input text: two runs on identical text produce identical paragraph lists
and identical per-paragraph sentence lists (the embedded functions take
no state besides the text, mirroring the Python methods, which read only
their argument). -/
theorem segmentation_deterministic (t₁ t₂ : Str) (h : t₁ = t₂) :
    split_into_paragraphs t₁ = split_into_paragraphs t₂
    ∧ (split_into_paragraphs t₁).map split_into_sentences
      = (split_into_paragraphs t₂).map split_into_sentences := by
  subst h
  exact ⟨rfl, rfl⟩

/-- Witness for `segmentation_deterministic` on a concrete two-paragraph
text containing a page marker. -/
theorem segmentation_deterministic_witness :
    split_into_paragraphs ("--- Page 1 ---\nA b. C d!\n\nE f?".toList)
      = split_into_paragraphs ("--- Page 1 ---\nA b. C d!\n\nE f?".toList)
    ∧ (split_into_paragraphs ("--- Page 1 ---\nA b. C d!\n\nE f?".toList)).map
        split_into_sentences
      = (split_into_paragraphs ("--- Page 1 ---\nA b. C d!\n\nE f?".toList)).map
        split_into_sentences :=
  segmentation_deterministic ("--- Page 1 ---\nA b. C d!\n\nE f?".toList)
    ("--- Page 1 ---\nA b. C d!\n\nE f?".toList) rfl

/-! ### enhanced_citation: token sets and Jaccard similarity -/

/-- Insertion-ordered removal of duplicates: the order-preserving
semantics of building a Python `set`-like collection by first insertion;
only membership and cardinality are ever used, matching `set()`. -/
def insertion_dedup {α : Type} [DecidableEq α] (l : List α) : List α :=
  l.foldl (fun acc x => if x ∈ acc then acc else acc ++ [x]) []

theorem mem_foldl_insert {α : Type} [DecidableEq α] :
    ∀ (l acc : List α) (x : α),
      (x ∈ l.foldl (fun acc y => if y ∈ acc then acc else acc ++ [y]) acc) ↔
        x ∈ acc ∨ x ∈ l := by
  intro l
  induction l with
  | nil => intro acc x; simp
  | cons y ys ih =>
    intro acc x
    rw [List.foldl_cons, ih]
    by_cases hy : y ∈ acc
    · simp only [if_pos hy, List.mem_cons]
      constructor
      · rintro (h | h) <;> tauto
      · rintro (h | h | h)
        · tauto
        · subst h; tauto
        · tauto
    · simp only [if_neg hy, List.mem_append, List.mem_singleton, List.mem_cons]
      tauto

theorem mem_insertion_dedup {α : Type} [DecidableEq α] (l : List α) (x : α) :
    x ∈ insertion_dedup l ↔ x ∈ l := by
  unfold insertion_dedup
  rw [mem_foldl_insert]
  simp

theorem nodup_foldl_insert {α : Type} [DecidableEq α] :
    ∀ (l acc : List α), acc.Nodup →
      (l.foldl (fun acc y => if y ∈ acc then acc else acc ++ [y]) acc).Nodup := by
  intro l
  induction l with
  | nil => intro acc h; exact h
  | cons y ys ih =>
    intro acc h
    rw [List.foldl_cons]
    by_cases hy : y ∈ acc
    · rw [if_pos hy]; exact ih acc h
    · rw [if_neg hy]
      refine ih _ ?_
      simp [List.nodup_append, h, hy]

theorem nodup_insertion_dedup {α : Type} [DecidableEq α] (l : List α) :
    (insertion_dedup l).Nodup :=
  nodup_foldl_insert l [] List.nodup_nil

theorem insertion_dedup_length_eq_card {α : Type} [DecidableEq α] (l : List α) :
    (insertion_dedup l).length = l.toFinset.card := by
  have h1 : (insertion_dedup l).toFinset = l.toFinset := by
    ext x
    simp [List.mem_toFinset, mem_insertion_dedup]
  calc (insertion_dedup l).length
      = (insertion_dedup l).toFinset.card :=
        (List.toFinset_card_of_nodup (nodup_insertion_dedup l)).symm
    _ = l.toFinset.card := by rw [h1]

/-- A regex `\w` word character (ASCII model). -/
def isWordChar (c : Char) : Bool := c.isAlphanum || c = '_'

/-- Fuel-driven worker for `py_word_tokens`; each step consumes at least
one character, so `length + 1` fuel suffices. -/
def word_tokens_fuel : Nat → Str → List Str
  | 0, _ => []
  | fuel + 1, s =>
    match s.dropWhile (fun c => !isWordChar c) with
    | [] => []
    | c :: cs =>
      let run := (c :: cs).takeWhile isWordChar
      run :: word_tokens_fuel fuel ((c :: cs).drop run.length)

/-- Embeds `re.findall(r'\b\w+\b', text.lower())` of `_similarity_score`
(enhanced_citation.py lines 302-303): the maximal word-character runs of
the lowercased text. -/
def py_word_tokens (t : Str) : List Str :=
  word_tokens_fuel (t.length + 1) (t.map Char.toLower)

/-- Embeds `EnhancedCitationService._similarity_score`
(enhanced_citation.py lines 289-312): Jaccard similarity of the two
token sets, 0 when either set is empty. -/
def similarity_score (text1 text2 : Str) : ℚ :=
  let words1 := insertion_dedup (py_word_tokens text1)
  let words2 := insertion_dedup (py_word_tokens text2)
  if words1.isEmpty || words2.isEmpty then 0
  else
    let inter := (words1.filter (fun w => decide (w ∈ words2))).length
    let uni := (words1 ++ words2.filter (fun w => decide (w ∉ words1))).length
    if 0 < uni then (inter : ℚ) / (uni : ℚ) else 0

/-- The similarity score is positive exactly when the two texts share a
word token. -/
theorem similarity_score_pos_iff (a b : Str) :
    0 < similarity_score a b ↔
      ∃ w, w ∈ py_word_tokens a ∧ w ∈ py_word_tokens b := by
  unfold similarity_score
  by_cases ha : py_word_tokens a = []
  · have h1 : insertion_dedup (py_word_tokens a) = [] := by
      rcases hx : insertion_dedup (py_word_tokens a) with _ | ⟨x, xs⟩
      · rfl
      · exfalso
        have : x ∈ insertion_dedup (py_word_tokens a) := by rw [hx]; simp
        rw [mem_insertion_dedup, ha] at this
        simp at this
    rw [h1]
    simp [ha]
  · by_cases hb : py_word_tokens b = []
    · have h2 : insertion_dedup (py_word_tokens b) = [] := by
        rcases hx : insertion_dedup (py_word_tokens b) with _ | ⟨x, xs⟩
        · rfl
        · exfalso
          have : x ∈ insertion_dedup (py_word_tokens b) := by rw [hx]; simp
          rw [mem_insertion_dedup, hb] at this
          simp at this
      rw [h2]
      simp [hb]
    · have ha1 : insertion_dedup (py_word_tokens a) ≠ [] := by
        obtain ⟨x, hxmem⟩ := List.exists_mem_of_ne_nil _ ha
        exact List.ne_nil_of_mem ((mem_insertion_dedup _ x).mpr hxmem)
      have hb1 : insertion_dedup (py_word_tokens b) ≠ [] := by
        obtain ⟨x, hxmem⟩ := List.exists_mem_of_ne_nil _ hb
        exact List.ne_nil_of_mem ((mem_insertion_dedup _ x).mpr hxmem)
      have hae : (insertion_dedup (py_word_tokens a)).isEmpty = false := by
        simpa [List.isEmpty_iff] using ha1
      have hbe : (insertion_dedup (py_word_tokens b)).isEmpty = false := by
        simpa [List.isEmpty_iff] using hb1
      simp only [hae, hbe, Bool.or_self, Bool.false_eq_true, if_false]
      have huni : 0 < (insertion_dedup (py_word_tokens a)
          ++ (insertion_dedup (py_word_tokens b)).filter
            (fun w => decide (w ∉ insertion_dedup (py_word_tokens a)))).length := by
        rcases hx : insertion_dedup (py_word_tokens a) with _ | ⟨x, xs⟩
        · exact absurd hx ha1
        · simp
      rw [if_pos huni]
      have hcast : (0 : ℚ) < ((insertion_dedup (py_word_tokens a)
          ++ (insertion_dedup (py_word_tokens b)).filter
            (fun w => decide (w ∉ insertion_dedup (py_word_tokens a)))).length : ℚ) := by
        exact_mod_cast huni
      constructor
      · intro h
        by_contra hno
        have hint : (insertion_dedup (py_word_tokens a)).filter
            (fun w => decide (w ∈ insertion_dedup (py_word_tokens b))) = [] := by
          rw [List.filter_eq_nil_iff]
          intro x hx
          simp only [decide_eq_true_eq]
          intro hx2
          exact hno ⟨x, (mem_insertion_dedup _ _).mp hx,
            (mem_insertion_dedup _ _).mp hx2⟩
        rw [hint] at h
        simp at h
      · rintro ⟨w, hwa, hwb⟩
        have hw1 : w ∈ insertion_dedup (py_word_tokens a) :=
          (mem_insertion_dedup _ _).mpr hwa
        have hw2 : w ∈ insertion_dedup (py_word_tokens b) :=
          (mem_insertion_dedup _ _).mpr hwb
        have hwm : w ∈ (insertion_dedup (py_word_tokens a)).filter
            (fun w => decide (w ∈ insertion_dedup (py_word_tokens b))) :=
          List.mem_filter.mpr ⟨hw1, by simp [hw2]⟩
        have hlen : 0 < ((insertion_dedup (py_word_tokens a)).filter
            (fun w => decide (w ∈ insertion_dedup (py_word_tokens b)))).length :=
          List.length_pos.mpr (List.ne_nil_of_mem hwm)
        exact div_pos (by exact_mod_cast hlen) hcast

/-! ### enhanced_citation.EnhancedCitationService.get_citation -/

/-- A stored paragraph record of the citation metadata: its resolved
page, its text, and its sentences in index order (the Python dicts keyed
`str(i)`/`str(j)` iterate in exactly this insertion order). -/
structure ParagraphRec where
  page : Int
  text : Str
  sentences : List Str
deriving DecidableEq

/-- The stored citation metadata of one document. -/
structure CitationData where
  document_title : Option String
  paragraphs : List ParagraphRec
deriving DecidableEq

/-- One candidate visited by the matching loop of `get_citation`: its
similarity score against the chunk, and the paragraph (and optional
sentence) index and page it would cite. -/
structure Cand where
  score : ℚ
  page : Int
  pIdx : Nat
  sIdx : Option Nat
deriving DecidableEq

/-- The sentence candidates of one paragraph, visited in sentence order
(the inner loop of `get_citation`, enhanced_citation.py lines 252-263). -/
def sent_cands (pIdx : Nat) (page : Int) (chunk : Str) : Nat → List Str → List Cand
  | _, [] => []
  | j, s :: rest =>
    { score := similarity_score chunk s, page := page, pIdx := pIdx, sIdx := some j }
      :: sent_cands pIdx page chunk (j + 1) rest

/-- The full candidate sequence of the matching loop of `get_citation`
(enhanced_citation.py lines 238-263): each paragraph in order, followed —
at sentence granularity — by its sentences in order. -/
def para_cands (chunk : Str) (sg : Bool) : Nat → List ParagraphRec → List Cand
  | _, [] => []
  | i, p :: rest =>
    ({ score := similarity_score chunk p.text, page := p.page, pIdx := i, sIdx := none }
      :: (if sg then sent_cands i p.page chunk 0 p.sentences else []))
    ++ para_cands chunk sg (i + 1) rest

/-- The running state of the matching loop: `best_score` (initially 0)
and the best match so far (initially absent). -/
structure BestSt where
  best_score : ℚ
  best : Option Cand
deriving DecidableEq

/-- One step of the matching loop: a candidate replaces the best match
exactly when its score strictly exceeds the best score
(`if p_score > best_score`, `if s_score > best_score`). -/
def cite_step (st : BestSt) (c : Cand) : BestSt :=
  if st.best_score < c.score then { best_score := c.score, best := some c } else st

/-- The whole matching loop of `get_citation`, started from score 0 and
no match. -/
def run_best (cs : List Cand) : BestSt := cs.foldl cite_step ⟨0, none⟩

/-- Embeds `EnhancedCitationService.get_citation`
(enhanced_citation.py lines 209-287): unknown document falls back to
`"Document {document_id}"`; granularity `document` short-circuits; the
matching loop otherwise selects the best candidate, and the final
formatting returns page, paragraph or sentence citations, degrading to
the paragraph form when no sentence-level match was recorded. -/
def get_citation (citation_data : Option CitationData) (document_id : String)
    (chunk_text : Str) (granularity : String) : String :=
  match citation_data with
  | none => "Document " ++ document_id
  | some d =>
    if granularity = "document" then
      "Document: " ++ (d.document_title.getD document_id)
    else
      match (run_best (para_cands chunk_text (decide (granularity = "sentence"))
          0 d.paragraphs)).best with
      | none => "Document: " ++ (d.document_title.getD document_id)
      | some c =>
        if granularity = "page" then "Page " ++ toString c.page
        else if granularity = "paragraph" then
          "Page " ++ toString c.page ++ ", Paragraph " ++ toString (c.pIdx + 1)
        else
          match c.sIdx with
          | some j =>
            if granularity = "sentence" then
              "Page " ++ toString c.page ++ ", Paragraph " ++ toString (c.pIdx + 1)
                ++ ", Sentence " ++ toString (j + 1)
            else
              "Page " ++ toString c.page ++ ", Paragraph " ++ toString (c.pIdx + 1)
          | none =>
            "Page " ++ toString c.page ++ ", Paragraph " ++ toString (c.pIdx + 1)

/-- The matching loop leaves its state unchanged when no candidate
strictly beats the incoming best score. -/
theorem foldl_cite_step_stable :
    ∀ (cs : List Cand) (b : ℚ) (cur : Option Cand),
      (∀ c ∈ cs, c.score ≤ b) → cs.foldl cite_step ⟨b, cur⟩ = ⟨b, cur⟩ := by
  intro cs
  induction cs with
  | nil => intro b cur _; rfl
  | cons x xs ih =>
    intro b cur h
    have hx : x.score ≤ b := h x (by simp)
    have hstep : cite_step ⟨b, cur⟩ x = ⟨b, cur⟩ := by
      simp [cite_step, not_lt.mpr hx]
    rw [List.foldl_cons, hstep]
    exact ih b cur (fun c hc => h c (by simp [hc]))

/-- When some candidate strictly beats the incoming best score, the
matching loop ends on the first candidate attaining the maximum score:
every earlier candidate scores strictly less, every candidate scores at
most as much. -/
theorem foldl_cite_step_found :
    ∀ (cs : List Cand) (b : ℚ) (cur : Option Cand),
      (∃ c ∈ cs, b < c.score) →
      ∃ pre c post, cs = pre ++ c :: post
        ∧ (∀ x ∈ pre, x.score < c.score)
        ∧ b < c.score
        ∧ (∀ x ∈ cs, x.score ≤ c.score)
        ∧ cs.foldl cite_step ⟨b, cur⟩ = ⟨c.score, some c⟩ := by
  intro cs
  induction cs with
  | nil => intro b cur h; simp at h
  | cons x xs ih =>
    intro b cur h
    by_cases hx : b < x.score
    · have hstep : cite_step ⟨b, cur⟩ x = ⟨x.score, some x⟩ := by
        simp [cite_step, hx]
      by_cases hxs : ∃ c ∈ xs, x.score < c.score
      · obtain ⟨pre, c, post, heq, hpre, hbc, hall, hfold⟩ := ih x.score (some x) hxs
        refine ⟨x :: pre, c, post, by rw [heq]; rfl, ?_, lt_trans hx hbc, ?_, ?_⟩
        · intro y hy
          rcases List.mem_cons.mp hy with h1 | h1
          · subst h1; exact hbc
          · exact hpre y h1
        · intro y hy
          rcases List.mem_cons.mp hy with h1 | h1
          · subst h1; exact le_of_lt hbc
          · exact hall y h1
        · rw [List.foldl_cons, hstep]; exact hfold
      · push_neg at hxs
        refine ⟨[], x, xs, rfl, by simp, hx, ?_, ?_⟩
        · intro y hy
          rcases List.mem_cons.mp hy with h1 | h1
          · subst h1; exact le_rfl
          · exact hxs y h1
        · rw [List.foldl_cons, hstep]
          exact foldl_cite_step_stable xs x.score (some x) hxs
    · have hstep : cite_step ⟨b, cur⟩ x = ⟨b, cur⟩ := by
        simp [cite_step, hx]
      have hxs : ∃ c ∈ xs, b < c.score := by
        obtain ⟨c, hc, hbc⟩ := h
        rcases List.mem_cons.mp hc with h1 | h1
        · subst h1; exact absurd hbc hx
        · exact ⟨c, h1, hbc⟩
      obtain ⟨pre, c, post, heq, hpre, hbc, hall, hfold⟩ := ih b cur hxs
      have hxc : x.score < c.score := lt_of_le_of_lt (not_lt.mp hx) hbc
      refine ⟨x :: pre, c, post, by rw [heq]; rfl, ?_, hbc, ?_, ?_⟩
      · intro y hy
        rcases List.mem_cons.mp hy with h1 | h1
        · subst h1; exact hxc
        · exact hpre y h1
      · intro y hy
        rcases List.mem_cons.mp hy with h1 | h1
        · subst h1; exact le_of_lt hxc
        · exact hall y h1
      · rw [List.foldl_cons, hstep]; exact hfold

/-- With no positively scoring candidate, the matching loop retains no
best match. -/
theorem run_best_none (cs : List Cand) (h : ∀ c ∈ cs, c.score ≤ 0) :
    run_best cs = ⟨0, none⟩ :=
  foldl_cite_step_stable cs 0 none h

/-- Helper: an element found by index lookup is a member. -/
theorem mem_of_idx {α : Type} {l : List α} {n : Nat} {a : α}
    (h : l[n]? = some a) : a ∈ l := by
  obtain ⟨hlt, hv⟩ := List.getElem?_eq_some_iff.mp h
  exact hv ▸ List.getElem_mem hlt

/-- Helper: index lookup in an append stays in the left part below its
length. -/
theorem getElem?_append_of_lt {α : Type} (l₁ l₂ : List α) (n : Nat)
    (h : n < l₁.length) : (l₁ ++ l₂)[n]? = l₁[n]? := by
  rw [List.getElem?_append, if_pos h]

/-- Helper: index lookup at the junction of an append-cons. -/
theorem getElem?_append_cons {α : Type} (pre : List α) (x : α) (post : List α) :
    (pre ++ x :: post)[pre.length]? = some x := by
  induction pre with
  | nil => simp
  | cons a as ih => simpa using ih

/-- Every sentence candidate scores the similarity of one of the
paragraph's sentences. -/
theorem mem_sent_cands (pIdx : Nat) (page : Int) (chunk : Str) :
    ∀ (ss : List Str) (j : Nat) (c : Cand), c ∈ sent_cands pIdx page chunk j ss →
      ∃ s ∈ ss, c.score = similarity_score chunk s := by
  intro ss
  induction ss with
  | nil => intro j c hc; simp [sent_cands] at hc
  | cons s rest ih =>
    intro j c hc
    simp only [sent_cands] at hc
    rcases List.mem_cons.mp hc with h | h
    · exact ⟨s, by simp, by rw [h]⟩
    · obtain ⟨s2, hs2, hsc⟩ := ih (j + 1) c h
      exact ⟨s2, by simp [hs2], hsc⟩

/-- Every candidate of the matching loop scores the similarity of a
paragraph, or — at sentence granularity — of a sentence of a paragraph. -/
theorem mem_para_cands (chunk : Str) (sg : Bool) :
    ∀ (ps : List ParagraphRec) (i : Nat) (c : Cand), c ∈ para_cands chunk sg i ps →
      (∃ p ∈ ps, c.score = similarity_score chunk p.text)
      ∨ (sg = true ∧ ∃ p ∈ ps, ∃ s ∈ p.sentences, c.score = similarity_score chunk s) := by
  intro ps
  induction ps with
  | nil => intro i c hc; simp [para_cands] at hc
  | cons p rest ih =>
    intro i c hc
    simp only [para_cands] at hc
    rcases List.mem_append.mp hc with h | h
    · rcases List.mem_cons.mp h with h1 | h1
      · left; exact ⟨p, by simp, by rw [h1]⟩
      · cases sg with
        | false => simp at h1
        | true =>
          rw [if_pos rfl] at h1
          obtain ⟨s, hs, hsc⟩ := mem_sent_cands i p.page chunk p.sentences 0 c h1
          right; exact ⟨rfl, p, by simp, s, hs, hsc⟩
    · rcases ih (i + 1) c h with ⟨p2, hp2, hsc⟩ | ⟨hsg, p2, hp2, s, hs, hsc⟩
      · left; exact ⟨p2, by simp [hp2], hsc⟩
      · right; exact ⟨hsg, p2, by simp [hp2], s, hs, hsc⟩

/-- At paragraph granularity the candidate list is the index-preserving
image of the paragraph list. -/
theorem para_cands_false_getElem (chunk : Str) :
    ∀ (ps : List ParagraphRec) (i k : Nat),
      (para_cands chunk false i ps)[k]? = (ps[k]?).map (fun p =>
        { score := similarity_score chunk p.text, page := p.page
          pIdx := i + k, sIdx := none }) := by
  intro ps
  induction ps with
  | nil => intro i k; simp [para_cands]
  | cons p rest ih =>
    intro i k
    have hred : para_cands chunk false i (p :: rest)
        = { score := similarity_score chunk p.text, page := p.page
            pIdx := i, sIdx := none } :: para_cands chunk false (i + 1) rest := by
      simp [para_cands]
    rw [hred]
    cases k with
    | zero => simp
    | succ k =>
      rw [List.getElem?_cons_succ, List.getElem?_cons_succ, ih (i + 1) k]
      cases h : rest[k]? with
      | none => simp
      | some q =>
        simp only [Option.map_some', Option.some.injEq, Cand.mk.injEq,
          eq_self_iff_true, true_and, and_true]
        omega

/-- The matching loop run from score 0 ends on the candidate at index `k`
whenever that candidate scores positively, no candidate scores more, and
every earlier candidate scores strictly less. -/
theorem run_best_first_max (cs : List Cand) (k : Nat) (c : Cand)
    (hck : cs[k]? = some c) (hpos : 0 < c.score)
    (hmax : ∀ (l : Nat) (c2 : Cand), cs[l]? = some c2 → c2.score ≤ c.score)
    (hfirst : ∀ (l : Nat) (c2 : Cand), l < k → cs[l]? = some c2 → c2.score < c.score) :
    run_best cs = ⟨c.score, some c⟩ := by
  have hcmem : c ∈ cs := mem_of_idx hck
  obtain ⟨pre, b, post, heq, hpre, hb0, hall, hfold⟩ :=
    foldl_cite_step_found cs 0 none ⟨c, hcmem, hpos⟩
  have hbpos : cs[pre.length]? = some b := by
    rw [heq]; exact getElem?_append_cons pre b post
  rcases lt_trichotomy pre.length k with hlt | heqk | hgt
  · exfalso
    have h1 := hfirst pre.length b hlt hbpos
    have h2 := hall c hcmem
    exact absurd h2 (not_le.mpr h1)
  · rw [heqk, hck] at hbpos
    have hbc : b = c := (Option.some.inj hbpos).symm
    rw [run_best, hfold, hbc]
  · exfalso
    have hkpre : cs[k]? = pre[k]? := by
      rw [heq]; exact getElem?_append_of_lt pre (b :: post) k hgt
    have hcpre : c ∈ pre := mem_of_idx (hkpre ▸ hck)
    have h1 := hpre c hcpre
    have h2 := hmax pre.length b hbpos
    exact absurd h2 (not_le.mpr h1)

/-- C6: `get_citation` returns the citation of the paragraph (and, at
sentence granularity, the sentence) with the highest Jaccard overlap,
ties broken by the earliest paragraph/sentence visit index; when no
paragraph overlaps the chunk it falls back to a document-level citation
(for sentence granularity under the indexer's invariant that sentence
tokens come from their paragraph); and an earliest-best candidate
without a sentence index degrades to the paragraph-level citation form. -/
theorem get_citation_spec (d : CitationData) (document_id : String) (chunk : Str) :
    ((∀ p ∈ d.paragraphs, similarity_score chunk p.text = 0) →
      get_citation (some d) document_id chunk "paragraph"
        = "Document: " ++ (d.document_title.getD document_id))
    ∧ (∀ (k : Nat) (pk : ParagraphRec), d.paragraphs[k]? = some pk →
        0 < similarity_score chunk pk.text →
        (∀ (l : Nat) (pl : ParagraphRec), d.paragraphs[l]? = some pl →
          similarity_score chunk pl.text ≤ similarity_score chunk pk.text) →
        (∀ (l : Nat) (pl : ParagraphRec), l < k → d.paragraphs[l]? = some pl →
          similarity_score chunk pl.text < similarity_score chunk pk.text) →
        get_citation (some d) document_id chunk "paragraph"
          = "Page " ++ toString pk.page ++ ", Paragraph " ++ toString (k + 1))
    ∧ (∀ (k : Nat) (c : Cand), (para_cands chunk true 0 d.paragraphs)[k]? = some c →
        0 < c.score →
        (∀ (l : Nat) (c2 : Cand), (para_cands chunk true 0 d.paragraphs)[l]? = some c2 →
          c2.score ≤ c.score) →
        (∀ (l : Nat) (c2 : Cand), l < k →
          (para_cands chunk true 0 d.paragraphs)[l]? = some c2 →
          c2.score < c.score) →
        get_citation (some d) document_id chunk "sentence"
          = match c.sIdx with
            | some j => "Page " ++ toString c.page ++ ", Paragraph "
                ++ toString (c.pIdx + 1) ++ ", Sentence " ++ toString (j + 1)
            | none => "Page " ++ toString c.page ++ ", Paragraph "
                ++ toString (c.pIdx + 1))
    ∧ ((∀ p ∈ d.paragraphs, ∀ s ∈ p.sentences, ∀ w,
          w ∈ py_word_tokens s → w ∈ py_word_tokens p.text) →
       (∀ p ∈ d.paragraphs, similarity_score chunk p.text = 0) →
       get_citation (some d) document_id chunk "sentence"
         = "Document: " ++ (d.document_title.getD document_id)) := by
  refine ⟨?_, ?_, ?_, ?_⟩
  · intro hz
    have hall : ∀ c ∈ para_cands chunk false 0 d.paragraphs, c.score ≤ 0 := by
      intro c hc
      rcases mem_para_cands chunk false d.paragraphs 0 c hc with ⟨p, hp, hsc⟩ | ⟨hsg, _⟩
      · rw [hsc, hz p hp]
      · exact absurd hsg (by simp)
    have hdec : (decide (("paragraph" : String) = "sentence")) = false := by decide
    have hrun := run_best_none _ hall
    simp only [get_citation,
      if_neg (by decide : ¬ ("paragraph" : String) = "document"), hdec]
    rw [hrun]
  · intro k pk hk hpos hmax hfirst
    set c : Cand := { score := similarity_score chunk pk.text, page := pk.page
                      pIdx := k, sIdx := none } with hcdef
    have hck : (para_cands chunk false 0 d.paragraphs)[k]? = some c := by
      rw [para_cands_false_getElem chunk d.paragraphs 0 k, hk]
      simp [hcdef]
    have hmax2 : ∀ (l : Nat) (c2 : Cand),
        (para_cands chunk false 0 d.paragraphs)[l]? = some c2 → c2.score ≤ c.score := by
      intro l c2 hl
      rw [para_cands_false_getElem chunk d.paragraphs 0 l] at hl
      obtain ⟨pl, hpl, hfl⟩ := Option.map_eq_some'.mp hl
      have := hmax l pl hpl
      rw [← hfl]
      simpa [hcdef] using this
    have hfirst2 : ∀ (l : Nat) (c2 : Cand), l < k →
        (para_cands chunk false 0 d.paragraphs)[l]? = some c2 → c2.score < c.score := by
      intro l c2 hlk hl
      rw [para_cands_false_getElem chunk d.paragraphs 0 l] at hl
      obtain ⟨pl, hpl, hfl⟩ := Option.map_eq_some'.mp hl
      have := hfirst l pl hlk hpl
      rw [← hfl]
      simpa [hcdef] using this
    have hrun := run_best_first_max _ k c hck (by simpa [hcdef] using hpos) hmax2 hfirst2
    have hdec : (decide (("paragraph" : String) = "sentence")) = false := by decide
    simp only [get_citation,
      if_neg (by decide : ¬ ("paragraph" : String) = "document"), hdec]
    rw [hrun]
    rfl
  · intro k c hck hpos hmax hfirst
    have hrun := run_best_first_max _ k c hck hpos hmax hfirst
    have hdec : (decide (("sentence" : String) = "sentence")) = true := by decide
    simp only [get_citation,
      if_neg (by decide : ¬ ("sentence" : String) = "document"), decide_True]
    rw [hrun]
    rcases hcs : c.sIdx with _ | j
    · simp only [hcs]
      rfl
    · simp only [hcs]
      rfl
  · intro hsub hz
    have hall : ∀ c ∈ para_cands chunk true 0 d.paragraphs, c.score ≤ 0 := by
      intro c hc
      rcases mem_para_cands chunk true d.paragraphs 0 c hc with
        ⟨p, hp, hsc⟩ | ⟨_, p, hp, s, hs, hsc⟩
      · rw [hsc, hz p hp]
      · rw [hsc]
        by_contra hposs
        obtain ⟨w, hwc, hws⟩ :=
          (similarity_score_pos_iff chunk s).mp (not_le.mp hposs)
        have hwp : w ∈ py_word_tokens p.text := hsub p hp s hs w hws
        have h0 : 0 < similarity_score chunk p.text :=
          (similarity_score_pos_iff chunk p.text).mpr ⟨w, hwc, hwp⟩
        rw [hz p hp] at h0
        exact lt_irrefl 0 h0
    have hdec : (decide (("sentence" : String) = "sentence")) = true := by decide
    have hrun := run_best_none _ hall
    simp only [get_citation,
      if_neg (by decide : ¬ ("sentence" : String) = "document"), decide_True]
    rw [hrun]

/-- A concrete one-paragraph citation index for the witness. -/
def dEx : CitationData :=
  { document_title := some "Doc 1"
    paragraphs := [{ page := 4, text := "hello world".toList
                     sentences := ["hello world".toList] }] }

/-- Witness for `get_citation_spec`: on a one-paragraph index the chunk
`"hello"` is cited to that paragraph. -/
theorem get_citation_spec_witness :
    get_citation (some dEx) "doc1" ("hello".toList) "paragraph"
      = "Page " ++ toString (4 : Int) ++ ", Paragraph " ++ toString (0 + 1) :=
  (get_citation_spec dEx "doc1" ("hello".toList)).2.1 0
    { page := 4, text := "hello world".toList, sentences := ["hello world".toList] }
    (by decide)
    ((similarity_score_pos_iff ("hello".toList) ("hello world".toList)).mpr
      ⟨"hello".toList, by decide, by decide⟩)
    (by
      intro l pl hl
      cases l with
      | zero =>
        have hpl : pl = { page := 4, text := "hello world".toList
                          sentences := ["hello world".toList] } := by
          simpa [dEx] using hl.symm
        rw [hpl]
      | succ m => simp [dEx] at hl)
    (by
      intro l pl hlk hl
      exact absurd hlk (by omega))

/-! ### theme_processor / query_processor: theme construction -/

/-- A theme citation (models app.models.theme.ThemeCitation). -/
structure ThemeCitation where
  document_id : String
  document_title : String
  citation : String
  relevance_score : ℚ
deriving DecidableEq

/-- A theme (models app.models.theme.Theme); the `id` (an external
`uuid4`) and the `description` (computed by the external nltk tokenizer)
are omitted, no claim depends on them. -/
structure ThemeRec where
  name : String
  document_count : Nat
  citations : List ThemeCitation
deriving DecidableEq

/-- The distinct non-noise labels in first-occurrence order: the key
order of the Python `clusters` dict (theme_processor.py lines 127-132,
query_processor.py lines 184-189). -/
def cluster_labels (labels : List Int) : List Int :=
  insertion_dedup (labels.filter (fun l => decide (l ≠ -1)))

/-- The ascending member indices carrying a given label. -/
def label_positions : Nat → List Int → Int → List Nat
  | _, [], _ => []
  | i, x :: xs, l =>
    if x = l then i :: label_positions (i + 1) xs l
    else label_positions (i + 1) xs l

/-- The clusters produced from the DBSCAN labels: one entry per distinct
non-noise label, in first-occurrence order, with its member indices. -/
def clusters_of (labels : List Int) : List (Int × List Nat) :=
  (cluster_labels labels).map (fun l => (l, label_positions 0 labels l))

/-- The `(doc_id, chunk_id)` members of a cluster, looked up through
`chunk_map` (theme_processor.py lines 142-145). -/
def cluster_members (chunkMap : List (String × String)) (idxs : List Nat) :
    List (String × String) :=
  idxs.filterMap (fun i => chunkMap[i]?)

/-- One citation of `ThemeProcessor.identify_themes`
(theme_processor.py lines 156-178): built only when the document
metadata lookup and the chunk content lookup both succeed, with the
placeholder relevance 0.9. -/
def theme_citation_of (docLookup : String → Option String)
    (chunkLookup : String → Option (Option Int)) (member : String × String) :
    Option ThemeCitation :=
  match docLookup member.1 with
  | none => none
  | some title =>
    match chunkLookup member.2 with
    | none => none
    | some pg =>
      some { document_id := member.1, document_title := title
             citation := "Page " ++ toString (pg.getD 1)
             relevance_score := 9/10 }

/-- The dedup-on-append of `ThemeProcessor.identify_themes`
(theme_processor.py lines 180-183): a citation is added unless one with
the same `(document_id, citation)` pair is already present. -/
def add_citation (acc : List ThemeCitation) (c : ThemeCitation) :
    List ThemeCitation :=
  if acc.any (fun x => x.document_id == c.document_id && x.citation == c.citation) then
    acc
  else acc ++ [c]

/-- One step of the citation loop: a failed lookup is skipped
(`continue`), a successful one goes through `add_citation`. -/
def cite_fold_step (docLookup : String → Option String)
    (chunkLookup : String → Option (Option Int))
    (acc : List ThemeCitation) (m : String × String) : List ThemeCitation :=
  match theme_citation_of docLookup chunkLookup m with
  | none => acc
  | some c => add_citation acc c

/-- The citation list of one cluster. -/
def build_citations (docLookup : String → Option String)
    (chunkLookup : String → Option (Option Int))
    (members : List (String × String)) : List ThemeCitation :=
  members.foldl (cite_fold_step docLookup chunkLookup) []

/-- Embeds the per-cluster theme construction of
`ThemeProcessor.identify_themes` (theme_processor.py lines 137-248):
a theme is produced only when the cluster's distinct document count
reaches `min_documents`, and `document_count` is that distinct count. -/
def tp_build_theme (chunkMap : List (String × String))
    (docLookup : String → Option String)
    (chunkLookup : String → Option (Option Int))
    (min_documents : Nat) (cluster : Int × List Nat) : Option ThemeRec :=
  if min_documents ≤
      (insertion_dedup ((cluster_members chunkMap cluster.2).map Prod.fst)).length then
    some { name := "Theme " ++ toString (cluster.1 + 1)
           document_count :=
             (insertion_dedup ((cluster_members chunkMap cluster.2).map Prod.fst)).length
           citations :=
             build_citations docLookup chunkLookup (cluster_members chunkMap cluster.2) }
  else none

/-- Embeds `ThemeProcessor.identify_themes` from the DBSCAN labels on:
`chunkMap` is the `chunk_map` index of `(doc_id, chunk_id)` pairs,
`labels` the external clusterer's output, `docLookup` the document
registry lookup (returning the title) and `chunkLookup` the vector-store
chunk lookup (returning the stored page metadata). Fewer distinct
documents than `min_documents` short-circuits to no themes
(theme_processor.py lines 96-98). -/
def tp_identify_themes (chunkMap : List (String × String)) (labels : List Int)
    (min_documents : Nat) (docLookup : String → Option String)
    (chunkLookup : String → Option (Option Int)) : List ThemeRec :=
  if (insertion_dedup (chunkMap.map Prod.fst)).length < min_documents then []
  else (clusters_of labels).filterMap
    (tp_build_theme chunkMap docLookup chunkLookup min_documents)

/-- config.MIN_THEME_DOCUMENTS (config.py). -/
def MIN_THEME_DOCUMENTS : Nat := 2

/-- The citation a query-processor theme records for one search result
(query_processor.py lines 233-240): the result's fields, verbatim. -/
def qp_theme_citation (r : SearchResult) : ThemeCitation :=
  { document_id := r.document_id, document_title := r.document_title
    citation := r.citation, relevance_score := r.relevance_score }

/-- Embeds the per-cluster theme construction of
`QueryProcessor.identify_themes` (query_processor.py lines 192-249):
every non-noise cluster yields a theme — there is no distinct-document
check — and `document_count` is the cluster's distinct document count. -/
def qp_build_theme (results : List SearchResult) (cluster : Int × List Nat) :
    ThemeRec :=
  { name := "Theme " ++ toString (cluster.1 + 1)
    document_count :=
      (insertion_dedup ((cluster.2.filterMap (fun i => results[i]?)).map
        SearchResult.document_id)).length
    citations := (cluster.2.filterMap (fun i => results[i]?)).map qp_theme_citation }

/-- Embeds `QueryProcessor.identify_themes` from the search results and
DBSCAN labels on: clustering runs only when at least
`MIN_THEME_DOCUMENTS` search results exist (query_processor.py line
156) — a count of results, not of documents. -/
def qp_identify_themes (results : List SearchResult) (labels : List Int) :
    List ThemeRec :=
  if MIN_THEME_DOCUMENTS ≤ results.length then
    (clusters_of labels).map (qp_build_theme results)
  else []

/-- Two search results from the same document. -/
def rA1 : SearchResult :=
  { document_id := "docA", document_title := "A", chunk_id := "c1"
    extracted_answer := "climate change", citation := "Page 1", relevance_score := 1 }

/-- A second search result from the same document. -/
def rA2 : SearchResult :=
  { document_id := "docA", document_title := "A", chunk_id := "c2"
    extracted_answer := "climate changes", citation := "Page 2", relevance_score := 1 }

/-- C1 counterexample: a query-processor clustering run over two
near-duplicate chunks of one document (DBSCAN with `min_samples = 2`
labels both 0) returns a theme whose `document_count` is 1, strictly
below the run's minimum-documents parameter `MIN_THEME_DOCUMENTS = 2`:
`QueryProcessor.identify_themes` never checks the distinct-document
count of a cluster. -/
theorem qp_theme_below_min_counterexample :
    (qp_identify_themes [rA1, rA2] [0, 0]).map ThemeRec.document_count = [1]
    ∧ ¬ (∀ t ∈ qp_identify_themes [rA1, rA2] [0, 0],
        MIN_THEME_DOCUMENTS ≤ t.document_count) := by
  constructor
  · rfl
  · decide

/-- Helper: a member of a cluster is an entry of the chunk map. -/
theorem cluster_members_subset (chunkMap : List (String × String))
    (idxs : List Nat) : ∀ m ∈ cluster_members chunkMap idxs, m ∈ chunkMap := by
  intro m hm
  obtain ⟨i, _, hel⟩ := List.mem_filterMap.mp hm
  exact mem_of_idx hel

/-- Helper: with both lookups succeeding, a member yields a citation
carrying the member's document id. -/
theorem theme_citation_of_some (docLookup : String → Option String)
    (chunkLookup : String → Option (Option Int)) (m : String × String)
    (h1 : (docLookup m.1).isSome) (h2 : (chunkLookup m.2).isSome) :
    ∃ c, theme_citation_of docLookup chunkLookup m = some c
      ∧ c.document_id = m.1 := by
  obtain ⟨title, htitle⟩ := Option.isSome_iff_exists.mp h1
  obtain ⟨pg, hpg⟩ := Option.isSome_iff_exists.mp h2
  exact ⟨{ document_id := m.1, document_title := title
           citation := "Page " ++ toString (pg.getD 1), relevance_score := 9/10 },
         by simp [theme_citation_of, htitle, hpg], rfl⟩

/-- Helper: when every member's lookups succeed, the citation list of a
cluster covers exactly the member document ids (as a set, on top of the
accumulator). -/
theorem build_citations_docids (docLookup : String → Option String)
    (chunkLookup : String → Option (Option Int)) :
    ∀ (members : List (String × String)) (acc : List ThemeCitation),
      (∀ m ∈ members, (docLookup m.1).isSome ∧ (chunkLookup m.2).isSome) →
      ((members.foldl (cite_fold_step docLookup chunkLookup) acc).map
          ThemeCitation.document_id).toFinset
        = (acc.map ThemeCitation.document_id).toFinset
          ∪ (members.map Prod.fst).toFinset := by
  intro members
  induction members with
  | nil => intro acc _; simp
  | cons m rest ih =>
    intro acc h
    have hm := h m (by simp)
    obtain ⟨c, hc, hcid⟩ :=
      theme_citation_of_some docLookup chunkLookup m hm.1 hm.2
    rw [List.foldl_cons,
      show cite_fold_step docLookup chunkLookup acc m = add_citation acc c by
        simp [cite_fold_step, hc]]
    by_cases hdup : acc.any
        (fun x => x.document_id == c.document_id && x.citation == c.citation)
    · rw [show add_citation acc c = acc by simp [add_citation, hdup]]
      rw [ih acc (fun x hx => h x (by simp [hx]))]
      obtain ⟨x, hxmem, hxp⟩ := List.any_eq_true.mp hdup
      have hxid : x.document_id = c.document_id := by
        simp only [Bool.and_eq_true, beq_iff_eq] at hxp
        exact hxp.1
      have hmdoc : m.1 ∈ (acc.map ThemeCitation.document_id).toFinset :=
        List.mem_toFinset.mpr (List.mem_map.mpr ⟨x, hxmem, by rw [hxid, hcid]⟩)
      rw [List.map_cons, List.toFinset_cons, Finset.union_insert,
        Finset.insert_eq_self.mpr (Finset.mem_union_left _ hmdoc)]
    · rw [show add_citation acc c = acc ++ [c] by simp [add_citation, hdup]]
      rw [ih (acc ++ [c]) (fun x hx => h x (by simp [hx]))]
      rw [List.map_append, List.toFinset_append, List.map_cons, List.toFinset_cons,
        List.map_cons, List.map_nil, List.toFinset_cons, List.toFinset_nil, hcid]
      rw [Finset.union_assoc, Finset.insert_union, Finset.empty_union]

/-- C1 (amended): every theme returned by
`ThemeProcessor.identify_themes` has `document_count ≥ min_documents`,
and — whenever every chunk-map entry's document and chunk lookups
succeed — `document_count` equals the number of distinct document ids
among the theme's citations; every theme returned by
`QueryProcessor.identify_themes` has `document_count` equal to the
distinct document ids among its citations, but with no lower bound. -/
theorem identify_themes_document_count_spec :
    (∀ (chunkMap : List (String × String)) (labels : List Int)
        (min_documents : Nat) (docLookup : String → Option String)
        (chunkLookup : String → Option (Option Int)),
      ∀ t ∈ tp_identify_themes chunkMap labels min_documents docLookup chunkLookup,
        min_documents ≤ t.document_count
        ∧ ((∀ dc ∈ chunkMap, (docLookup dc.1).isSome ∧ (chunkLookup dc.2).isSome) →
            t.document_count
              = (insertion_dedup (t.citations.map ThemeCitation.document_id)).length))
    ∧ (∀ (results : List SearchResult) (labels : List Int),
        ∀ t ∈ qp_identify_themes results labels,
          t.document_count
            = (insertion_dedup (t.citations.map ThemeCitation.document_id)).length) := by
  constructor
  · intro chunkMap labels min_documents docLookup chunkLookup t ht
    unfold tp_identify_themes at ht
    by_cases hguard : (insertion_dedup (chunkMap.map Prod.fst)).length < min_documents
    · rw [if_pos hguard] at ht
      simp at ht
    · rw [if_neg hguard] at ht
      obtain ⟨cluster, _, hbuild⟩ := List.mem_filterMap.mp ht
      unfold tp_build_theme at hbuild
      by_cases hmin : min_documents ≤
          (insertion_dedup ((cluster_members chunkMap cluster.2).map Prod.fst)).length
      · rw [if_pos hmin] at hbuild
        have ht2 := Option.some.inj hbuild
        constructor
        · rw [← ht2]
          exact hmin
        · intro hlook
          rw [← ht2]
          have hmemb : ∀ m ∈ cluster_members chunkMap cluster.2,
              (docLookup m.1).isSome ∧ (chunkLookup m.2).isSome := by
            intro m hm
            exact hlook m (cluster_members_subset chunkMap cluster.2 m hm)
          have hset : ((build_citations docLookup chunkLookup
              (cluster_members chunkMap cluster.2)).map
                ThemeCitation.document_id).toFinset
              = ((cluster_members chunkMap cluster.2).map Prod.fst).toFinset := by
            have h0 := build_citations_docids docLookup chunkLookup
              (cluster_members chunkMap cluster.2) [] hmemb
            simpa [build_citations] using h0
          show (insertion_dedup ((cluster_members chunkMap cluster.2).map
              Prod.fst)).length = _
          rw [insertion_dedup_length_eq_card, insertion_dedup_length_eq_card]
          rw [hset]
      · rw [if_neg hmin] at hbuild
        simp at hbuild
  · intro results labels t ht
    unfold qp_identify_themes at ht
    by_cases hg : MIN_THEME_DOCUMENTS ≤ results.length
    · rw [if_pos hg] at ht
      obtain ⟨cluster, _, heq⟩ := List.mem_map.mp ht
      rw [← heq]
      show (insertion_dedup ((cluster.2.filterMap (fun i => results[i]?)).map
          SearchResult.document_id)).length = _
      rw [show ((qp_build_theme results cluster).citations.map
          ThemeCitation.document_id)
          = (cluster.2.filterMap (fun i => results[i]?)).map
            SearchResult.document_id by
        simp only [qp_build_theme, List.map_map]
        rfl]
    · rw [if_neg hg] at ht
      simp at ht

/-- A concrete chunk map with one chunk of each of two documents. -/
def cmEx : List (String × String) := [("A", "a0"), ("B", "b0")]

/-- A document lookup where every document resolves to itself as title. -/
def dlEx : String → Option String := fun s => some s

/-- A chunk lookup where every chunk resolves with stored page 1. -/
def clEx : String → Option (Option Int) := fun _ => some (some 1)

/-- The theme the concrete run produces. -/
def tEx : ThemeRec :=
  { name := "Theme " ++ toString ((0 : Int) + 1)
    document_count := 2
    citations :=
      [{ document_id := "A", document_title := "A"
         citation := "Page " ++ toString ((some 1 : Option Int).getD 1)
         relevance_score := 9/10 },
       { document_id := "B", document_title := "B"
         citation := "Page " ++ toString ((some 1 : Option Int).getD 1)
         relevance_score := 9/10 }] }

/-- Witness for `identify_themes_document_count_spec` on a concrete
theme-processor run over one cluster spanning two documents. -/
theorem identify_themes_document_count_spec_witness :
    2 ≤ tEx.document_count
    ∧ tEx.document_count
      = (insertion_dedup (tEx.citations.map ThemeCitation.document_id)).length := by
  have hmem : tEx ∈ tp_identify_themes cmEx [0, 0] 2 dlEx clEx := by
    rw [show tp_identify_themes cmEx [0, 0] 2 dlEx clEx = [tEx] from rfl]
    exact List.mem_singleton.mpr rfl
  have h := identify_themes_document_count_spec.1 cmEx [0, 0] 2 dlEx clEx tEx hmem
  exact ⟨h.1, h.2 (by decide)⟩

/-! ### api.endpoints.documents.delete_document and the vector store -/

/-- A chunk stored in the vector database with its metadata. -/
structure ChunkEntry where
  chunk_id : String
  document_id : String
  document_title : String
  page_content : String
  page : Option Int
deriving DecidableEq

/-- The document-facing persistent state: the document registry of
`DocumentProcessor`, the vector store entries, and the chunk-id registry
`chunk_metadata` of `VectorDatabaseService`. -/
structure SystemState where
  documents : DocRegistry
  vector_entries : List ChunkEntry
  chunk_metadata : List (String × List String)
deriving DecidableEq

/-- Embeds `VectorDatabaseService.delete_document`
(vector_database.py lines 222-256): the chunk ids registered for the
document drive per-chunk `delete(filter={chunk_id})` calls on the store;
an empty registration returns `False` untouched. -/
def vdb_delete_document (st : SystemState) (document_id : String) :
    Bool × SystemState :=
  let chunk_ids :=
    ((st.chunk_metadata.find? (fun p => p.1 == document_id)).map Prod.snd).getD []
  if chunk_ids.isEmpty then (false, st)
  else
    (true,
     { st with
        vector_entries :=
          st.vector_entries.filter (fun e => !(chunk_ids.contains e.chunk_id))
        chunk_metadata :=
          st.chunk_metadata.filter (fun p => !(p.1 == document_id)) })

/-- Embeds the public `DELETE /documents/{document_id}` endpoint
(documents.py lines 118-126): it calls only
`DocumentProcessor.delete_document`; neither
`VectorDatabaseService.delete_document` nor any other vector-store
operation is invoked, so `vector_entries` and `chunk_metadata` are
untouched. -/
def api_delete_document (st : SystemState) (document_id : String)
    (file_ops_succeed : Bool) : Bool × SystemState :=
  ((delete_document st.documents document_id file_ops_succeed).success,
   { st with
      documents := (delete_document st.documents document_id file_ops_succeed).documents })

/-- The raw hit the external index produces for a stored entry at a
given distance. -/
def raw_hit_of (e : ChunkEntry) (d : ℚ) : RawHit :=
  { chunk_id := e.chunk_id, document_id := e.document_id
    document_title := e.document_title, page_content := e.page_content
    page := e.page, distance := d }

/-- The stored chunk of the document to be deleted. -/
def cEntry : ChunkEntry :=
  { chunk_id := "doc1_chunk_0", document_id := "doc1", document_title := "Doc 1"
    page_content := "climate impact text", page := some 1 }

/-- A system with one processed document indexed as one chunk. -/
def sysEx : SystemState :=
  { documents := [("doc1", sampleDoc)]
    vector_entries := [cEntry]
    chunk_metadata := [("doc1", ["doc1_chunk_0"])] }

/-- C4: the public delete endpoint reports success yet leaves the vector
store untouched — the deleted document's chunk is still stored, and a
subsequent search whose raw hits include that chunk still returns a
result referencing the document; the unwired
`VectorDatabaseService.delete_document` would have removed it. -/
theorem api_delete_document_leaves_vector_chunks :
    (api_delete_document sysEx "doc1" true).1 = true
    ∧ (api_delete_document sysEx "doc1" true).2.vector_entries = sysEx.vector_entries
    ∧ cEntry ∈ (api_delete_document sysEx "doc1" true).2.vector_entries
    ∧ (vdb_search_format [raw_hit_of cEntry (1/2)]).map SearchResult.document_id
        = ["doc1"]
    ∧ (vdb_delete_document sysEx "doc1").2.vector_entries = [] := by
  refine ⟨rfl, rfl, ?_, rfl, rfl⟩
  rw [show (api_delete_document sysEx "doc1" true).2.vector_entries = [cEntry] from rfl]
  exact List.mem_singleton.mpr rfl

end DocPipeline
